import Mathlib

set_option maxHeartbeats 1000000

namespace JsonSitter

/-!
Verification development for the rust-sitter JSON example: the string
escape decoder (`unescape`), the leaf token patterns and transforms of the
grammar, a recursive-descent model of the generated value parser, and the
diagnostic translator from `app.rs`.
-/

/-- Error type of the escape decoder, from `enum EscapeError` in parser.rs. -/
inductive EscapeError where
  | UnfinishedEscapeSequence
  | UnicodeError
deriving DecidableEq

/-- Outcome of `unescape`: either the decoded characters, a structured
`EscapeError`, or an abort at a character that reached the catch-all
`panic!` arm of the match. -/
inductive UnescapeResult where
  | panicked (c : Char)
  | error (e : EscapeError)
  | ok (s : List Char)
deriving DecidableEq

/-- The match over an escaped character in `unescape` (parser.rs lines
16-35), minus the `'u'` arm which is handled by the driver because it
manipulates the loop state. Arms appear in source order; the two hex-digit
arms use the source's exclusive ranges `'0'..'9'` and `'A'..'F'` and are
guarded by the `unicode` flag. Returns `none` when the catch-all
`panic!` arm would be reached. -/
def matchCh (i : Char) (unicode : Bool) : Option Nat :=
  if i = 'n' then some 10
  else if i = 'b' then some 8
  else if i = 'f' then some 12
  else if i = 'r' then some 13
  else if i = 't' then some 9
  else if i = '\'' then some 39
  else if i = '"' then some 34
  else if i = '\\' then some 92
  else if i = '/' then some 47
  else if unicode = true ∧ '0' ≤ i ∧ i < '9' then some (i.toNat - '0'.toNat)
  else if unicode = true ∧ 'A' ≤ i ∧ i < 'F' then some (10 + i.toNat - 'A'.toNat)
  else none

/-- The mutable state of the `unescape` loop: the UTF-16 code-unit buffer
`t`, the `unicode` flag, the 16-bit accumulator `encoded`, and the pending
escape counter `escape`. -/
structure UState where
  t : List Nat
  unicode : Bool
  encoded : Nat
  escape : Nat
deriving DecidableEq

/-- One iteration of the `for i in s.chars()` loop of `unescape`.
`Except.error i` models reaching the `panic!` arm at character `i`.
`u16` arithmetic is taken modulo 2^16 and `i as u16` truncates the code
point to 16 bits. -/
def stepU (st : UState) (i : Char) : Except Char UState :=
  if st.escape > 0 then
    if i = 'u' then Except.ok { st with unicode := true, encoded := 0, escape := 4 }
    else
      match matchCh i st.unicode with
      | none => Except.error i
      | some ch =>
        let esc := st.escape - 1
        if st.unicode = false then Except.ok { st with t := st.t ++ [ch], escape := esc }
        else
          let enc := (st.encoded * 16 + ch) % 65536
          if esc = 0 then
            Except.ok { st with t := st.t ++ [enc], encoded := enc, unicode := false, escape := 0 }
          else Except.ok { st with encoded := enc, escape := esc }
  else if i = '\\' then Except.ok { st with escape := 1 }
  else Except.ok { st with t := st.t ++ [i.toNat % 65536] }

/-- The `unescape` loop over the remaining characters. -/
def runU : UState → List Char → Except Char UState
  | st, [] => Except.ok st
  | st, i :: rest =>
    match stepU st i with
    | Except.ok st2 => runU st2 rest
    | Except.error c => Except.error c

/-- Modelled from the documented behavior of the external standard library
function `String::from_utf16`, which `unescape` calls to reassemble its
code-unit buffer: non-surrogate units decode to themselves, a high
surrogate (0xD800-0xDBFF) must be followed by a low surrogate
(0xDC00-0xDFFF) and the pair combines into one supplementary-plane code
point; anything else is an error. -/
def fromUtf16 : List Nat → Option (List Char)
  | [] => some []
  | u :: rest =>
    if u < 55296 ∨ 57344 ≤ u then
      match fromUtf16 rest with
      | some cs => some (Char.ofNat u :: cs)
      | none => none
    else if u < 56320 then
      match rest with
      | [] => none
      | v :: rest2 =>
        if 56320 ≤ v ∧ v < 57344 then
          match fromUtf16 rest2 with
          | some cs => some (Char.ofNat (65536 + (u - 55296) * 1024 + (v - 56320)) :: cs)
          | none => none
        else none
    else none

/-- `fn unescape(s: &str) -> Result<String, EscapeError>` from parser.rs:
run the scanning loop from the empty initial state; if the loop ends with
`escape > 0` the escape sequence was unfinished; otherwise reassemble the
UTF-16 buffer, failing with `UnicodeError` when reassembly fails. -/
def unescape (s : List Char) : UnescapeResult :=
  match runU ⟨[], false, 0, 0⟩ s with
  | Except.error c => UnescapeResult.panicked c
  | Except.ok st =>
    if st.escape > 0 then UnescapeResult.error EscapeError.UnfinishedEscapeSequence
    else
      match fromUtf16 st.t with
      | some cs => UnescapeResult.ok cs
      | none => UnescapeResult.error EscapeError.UnicodeError

/-- The characters accepted by the simple-escape arms of `unescape`. -/
def simpleEscapeChars : List Char := ['n', 'b', 'f', 'r', 't', '\'', '"', '\\', '/']

example : unescape ("\\n".data) = UnescapeResult.ok ['\n'] := by decide
example : unescape ("\\uD83D\\uDE10".data) = UnescapeResult.ok [Char.ofNat 128528] := by decide
example : unescape ("\\uD800".data) = UnescapeResult.error EscapeError.UnicodeError := by decide
example : unescape ("\\u0039".data) = UnescapeResult.panicked '9' := by decide
example : unescape ("\\u12".data) = UnescapeResult.error EscapeError.UnfinishedEscapeSequence := by decide
example : unescape ("\\u0b00".data) = UnescapeResult.ok [Char.ofNat 2048] := by decide

/-! ## Leaf token patterns and transforms

The `JsonNumber` leaf of the grammar carries the pattern
`\d+\.?\d*[eE]?\d*` with transform `|v| v.parse().unwrap()`, and the
`JsonString` leaf carries the pattern `"([^\"]|\\")*"` with transform
`|v| unescape(&v[1..v.len()-1]).expect("?")` (parser.rs lines 98-126).
The external lexer hands each leaf the longest prefix of the remaining
input that matches its pattern.
-/

/-- Splits off the leading run of decimal digits, as matched by `\d*`. -/
def digitsSpan : List Char → List Char × List Char
  | [] => ([], [])
  | c :: cs =>
    if c.isDigit then
      let p := digitsSpan cs
      (c :: p.1, p.2)
    else ([], c :: cs)

/-- Full-match recognizer for the number leaf pattern `\d+\.?\d*[eE]?\d*`
of `JsonNumber` in parser.rs: one or more digits, an optional dot followed
by any number of digits, and an optional exponent marker followed by any
number of digits (possibly zero). -/
def matchesNumberToken (p : List Char) : Bool :=
  let s1 := digitsSpan p
  if s1.1.isEmpty then false
  else
    let r2 := match s1.2 with
      | '.' :: t => (digitsSpan t).2
      | r => r
    let r3 := match r2 with
      | 'e' :: t => (digitsSpan t).2
      | 'E' :: t => (digitsSpan t).2
      | r => r
    r3.isEmpty

/-- Length of the longest prefix of `s` of length at most `k` that fully
matches the number pattern (0 when no prefix matches). -/
def longestNumLen (s : List Char) : Nat → Nat
  | 0 => 0
  | k + 1 => if matchesNumberToken (s.take (k + 1)) then k + 1 else longestNumLen s k

/-- The number token the lexer produces at the start of `s`: the longest
prefix of `s` matching the `JsonNumber` leaf pattern (maximal munch, the
documented token semantics of the external lexer); `[]` when no prefix
matches. -/
def numberToken (s : List Char) : List Char :=
  s.take (longestNumLen s s.length)

/-- Scans a string-literal body against `([^\"]|\\")*"`: consumes body
characters until the closing quote, where a backslash-quote pair counts as
a body element; the trailing `|| (t = [])` case lets a backslash before
the final quote count as a plain `[^\"]` character instead, as the lexer's
backtracking would. Used for the full-match string-token recognizer. -/
def bodyScan : List Char → Bool
  | [] => false
  | ['"'] => true
  | '"' :: _ :: _ => false
  | '\\' :: '"' :: t => bodyScan t || (t = [])
  | _ :: t => bodyScan t

/-- Full-match recognizer for the `JsonString` leaf pattern
`"([^\"]|\\")*"` from parser.rs. -/
def matchesStringToken (p : List Char) : Bool :=
  match p with
  | '"' :: rest => bodyScan rest
  | _ => false

/-- The `JsonString` leaf transform
`|v| unescape(&v[1..v.len()-1]).expect("?")` from parser.rs: strip the
surrounding quotes and decode the body; `none` models the `expect` call
aborting when `unescape` does not return `Ok` (and likewise an abort
inside `unescape` itself). -/
def jsonStringTransform (v : List Char) : Option (List Char) :=
  match unescape ((v.drop 1).dropLast) with
  | UnescapeResult.ok s => some s
  | _ => none

/-- True when `c` is `+` or `-`. -/
def isSign (c : Char) : Bool := c = '+' ∨ c = '-'

/-- Drops one leading sign character if present. -/
def stripSign : List Char → List Char
  | [] => []
  | c :: cs => if isSign c then cs else c :: cs

/-- Splits a numeric literal at the first `e`/`E`, separating the mantissa
from the exponent part (if any). -/
def splitExpo : List Char → List Char × Option (List Char)
  | [] => ([], none)
  | c :: cs =>
    if c = 'e' ∨ c = 'E' then ([], some cs)
    else
      let p := splitExpo cs
      (c :: p.1, p.2)

/-- Mantissa syntax of `f64::from_str`: digits with at most one dot and at
least one digit overall. -/
def mantissaOk (m : List Char) : Bool :=
  let s1 := digitsSpan m
  match s1.2 with
  | [] => !s1.1.isEmpty
  | '.' :: t => t.all Char.isDigit && (!s1.1.isEmpty || !t.isEmpty)
  | _ => false

/-- Exponent syntax of `f64::from_str`: an optional sign then at least one
digit. -/
def expoOk (e : List Char) : Bool :=
  let t := stripSign e
  !t.isEmpty && t.all Char.isDigit

/-- Modelled from the documented grammar of the external standard library
implementation of `f64::from_str` (as invoked by `v.parse()` in the
`JsonNumber` transform): an optional sign, then `inf`, `infinity` or
`nan` (case-insensitive), or a mantissa of digits with at most one dot
and at least one digit, optionally followed by an exponent marker, an
optional sign and at least one exponent digit. -/
def rustF64Syntax (s : List Char) : Bool :=
  let s1 := stripSign s
  let low := s1.map Char.toLower
  if low = "inf".data ∨ low = "infinity".data ∨ low = "nan".data then true
  else
    let sp := splitExpo s1
    match sp with
    | (m, none) => mantissaOk m
    | (m, some e) => mantissaOk m && expoOk e

/-- The `JsonNumber` leaf transform `|v| v.parse().unwrap()` from
parser.rs, modelled for definedness only: `none` models the `unwrap`
aborting when the token is not valid `f64` syntax (the floating-point
value itself is out of scope). -/
def jsonNumberTransform (v : List Char) : Option Unit :=
  if rustF64Syntax v then some () else none

example : matchesNumberToken ("123e".data) = true := by decide
example : numberToken ("123e".data) = "123e".data := by decide
example : numberToken ("123e]".data) = "123e".data := by decide
example : numberToken ("123.4e5x".data) = "123.4e5".data := by decide
example : matchesStringToken ("\"\\uD800\"".data) = true := by decide
example : jsonStringTransform ("\"\\uD800\"".data) = none := by decide
example : rustF64Syntax ("123e".data) = false := by decide
example : rustF64Syntax ("123e4".data) = true := by decide
example : rustF64Syntax ("123.".data) = true := by decide

/-! ## Value parser

The `parse` entry point of the grammar module is generated at build time
by the external rust_sitter grammar compiler from the annotated
`JsonValue` enum in parser.rs and is not part of the repository sources.
It is modelled here from the spec: a recursive descent over the grammar
`value := null | true | false | number | string | array | object` in the
declaration order of the enum, with whitespace skippable between tokens,
delimited lists that may be empty but admit no trailing delimiter, and
string leaves decoded through `unescape`.
-/

/-- JSON value tree from the `JsonValue` enum in parser.rs. Numbers keep
the matched token text (the `f64` interpretation is handled separately by
`rustF64Syntax`), strings hold decoded text, objects hold their
name/value `Property` list in source order. -/
inductive JsonValue where
  | Null
  | True
  | False
  | Number (tok : List Char)
  | Str (s : List Char)
  | Array (elems : List JsonValue)
  | Object (props : List (List Char × JsonValue))

/-- Whitespace characters of the `\s` extra pattern. -/
def isWs (c : Char) : Bool :=
  c = ' ' ∨ c = '\t' ∨ c = '\n' ∨ c = '\r' ∨ c = '\x0b' ∨ c = '\x0c'

/-- Skips leading whitespace. -/
def skipWs : List Char → List Char
  | [] => []
  | c :: cs => if isWs c then skipWs cs else c :: cs

/-- Matches a literal token, returning the rest of the input. -/
def lit : List Char → List Char → Option (List Char)
  | [], s => some s
  | _ :: _, [] => none
  | c :: cs, x :: xs => if x = c then lit cs xs else none

/-- Characters of the `null` leaf. -/
def nullTok : List Char := "null".data

/-- Characters of the `true` leaf. -/
def trueTok : List Char := "true".data

/-- Characters of the `false` leaf. -/
def falseTok : List Char := "false".data

/-- Modelled from the spec: greedy scan of one number token
`digit+ ('.' digit*)? ([eE] digit*)?` at the start of the input,
returning the token text and the rest. -/
def scanNumber (s : List Char) : Option (List Char × List Char) :=
  let s1 := digitsSpan s
  if s1.1.isEmpty then none
  else
    let fr := match s1.2 with
      | '.' :: t =>
        let d := digitsSpan t
        ('.' :: d.1, d.2)
      | r => ([], r)
    let ex := match fr.2 with
      | 'e' :: t =>
        let d := digitsSpan t
        ('e' :: d.1, d.2)
      | 'E' :: t =>
        let d := digitsSpan t
        ('E' :: d.1, d.2)
      | r => ([], r)
    some (s1.1 ++ fr.1 ++ ex.1, ex.2)

/-- Modelled from the spec: scan of a string-literal body
`( any-char-except-unescaped-quote | escaped-char )* '"'`, returning the
raw body and the input after the closing quote. -/
def scanStringBody : List Char → Option (List Char × List Char)
  | [] => none
  | c :: r =>
    if c = '"' then some ([], r)
    else if c = '\\' then
      match r with
      | [] => none
      | c2 :: r2 =>
        match scanStringBody r2 with
        | some p => some (c :: c2 :: p.1, p.2)
        | none => none
    else
      match scanStringBody r with
      | some p => some (c :: p.1, p.2)
      | none => none

/-- Modelled from the spec: parse one string literal: a quote, a body, a
closing quote, then decode the body via `unescape` (a decode failure is
fatal to the string literal). -/
def parseJString : List Char → Option (List Char × List Char)
  | [] => none
  | c :: r =>
    if c = '"' then
      match scanStringBody r with
      | some p =>
        match unescape p.1 with
        | UnescapeResult.ok dec => some (dec, p.2)
        | _ => none
      | none => none
    else none

mutual

/-- Modelled from the spec: parse one `value` production at the current
position, trying the alternatives in the declaration order of the
`JsonValue` enum. The fuel argument bounds the recursion depth and is
only ever consumed by strict sub-parses. -/
def parseValue : Nat → List Char → Option (JsonValue × List Char)
  | 0, _ => none
  | fuel + 1, s0 =>
    let s := skipWs s0
    match lit nullTok s with
    | some r => some (JsonValue.Null, r)
    | none =>
      match lit trueTok s with
      | some r => some (JsonValue.True, r)
      | none =>
        match lit falseTok s with
        | some r => some (JsonValue.False, r)
        | none =>
          match scanNumber s with
          | some p => some (JsonValue.Number p.1, p.2)
          | none =>
            match parseJString s with
            | some p => some (JsonValue.Str p.1, p.2)
            | none =>
              match s with
              | '[' :: r1 =>
                (match parseElems fuel r1 with
                 | some p =>
                   (match skipWs p.2 with
                    | ']' :: r3 => some (JsonValue.Array p.1, r3)
                    | _ => none)
                 | none => none)
              | '\x7b' :: r1 =>
                (match parseProps fuel r1 with
                 | some p =>
                   (match skipWs p.2 with
                    | '\x7d' :: r3 => some (JsonValue.Object p.1, r3)
                    | _ => none)
                 | none => none)
              | _ => none

/-- Modelled from the spec: delimited array element list, possibly empty;
when the first element fails to parse the list is empty and nothing is
consumed. -/
def parseElems : Nat → List Char → Option (List JsonValue × List Char)
  | 0, _ => none
  | fuel + 1, s =>
    match parseValue fuel s with
    | none => some ([], s)
    | some p =>
      match parseElemsTail fuel p.2 with
      | some q => some (p.1 :: q.1, q.2)
      | none => none

/-- Modelled from the spec: the continuation of an array element list:
after a `,` another element is required (no trailing delimiter). -/
def parseElemsTail : Nat → List Char → Option (List JsonValue × List Char)
  | 0, _ => none
  | fuel + 1, s =>
    match skipWs s with
    | ',' :: r =>
      (match parseValue fuel r with
       | some p =>
         (match parseElemsTail fuel p.2 with
          | some q => some (p.1 :: q.1, q.2)
          | none => none)
       | none => none)
    | s2 => some ([], s2)

/-- Modelled from the spec: one object property `string ':' value`. -/
def parseProp : Nat → List Char → Option ((List Char × JsonValue) × List Char)
  | 0, _ => none
  | fuel + 1, s =>
    match parseJString (skipWs s) with
    | some p =>
      (match skipWs p.2 with
       | ':' :: r2 =>
         (match parseValue fuel r2 with
          | some q => some ((p.1, q.1), q.2)
          | none => none)
       | _ => none)
    | none => none

/-- Modelled from the spec: delimited object property list, possibly
empty. -/
def parseProps : Nat → List Char → Option (List (List Char × JsonValue) × List Char)
  | 0, _ => none
  | fuel + 1, s =>
    match parseProp fuel s with
    | none => some ([], s)
    | some p =>
      match parsePropsTail fuel p.2 with
      | some q => some (p.1 :: q.1, q.2)
      | none => none

/-- Modelled from the spec: continuation of an object property list:
after a `,` another property is required (no trailing delimiter). -/
def parsePropsTail : Nat → List Char → Option (List (List Char × JsonValue) × List Char)
  | 0, _ => none
  | fuel + 1, s =>
    match skipWs s with
    | ',' :: r =>
      (match parseProp fuel r with
       | some p =>
         (match parsePropsTail fuel p.2 with
          | some q => some (p.1 :: q.1, q.2)
          | none => none)
       | none => none)
    | s2 => some ([], s2)

end

/-- Modelled from the spec: the `parse` entry point: parse one value with
enough fuel for the input, allow trailing whitespace, and require the
whole input to be consumed. `none` models a failed parse (the error-tree
detail of a failure is handled by the diagnostic translator model). -/
def parse (s : List Char) : Option JsonValue :=
  match parseValue (s.length + 1) s with
  | some p => if (skipWs p.2).isEmpty then some p.1 else none
  | none => none

example : parse ("[]".data) = some (JsonValue.Array []) := by rfl
example : parse ("\x7b\x7d".data) = some (JsonValue.Object []) := by rfl
example : parse ("[1,]".data) = none := by rfl
example : parse ("\x7b\"a\":1,\"a\":2\x7d".data) =
    some (JsonValue.Object [(['a'], JsonValue.Number ['1']), (['a'], JsonValue.Number ['2'])]) := by
  rfl
example : parse ("[42,\"x\"]".data) =
    some (JsonValue.Array [JsonValue.Number ['4', '2'], JsonValue.Str ['x']]) := by rfl
example : parse (" \x7b \"a\" : 1 \x7d ".data) =
    some (JsonValue.Object [(['a'], JsonValue.Number ['1'])]) := by rfl
example : parse ("\"abc\"".data) = some (JsonValue.Str ['a', 'b', 'c']) := by rfl
example : parse ("\"".data) = none := by rfl
example : parse ("\x7b\"a\":\x7d".data) = none := by rfl

/-! ## Diagnostic translator

`convert_parse_error_to_diagnostics` from app.rs walks a `ParseError`
tree and appends `Diagnostic` records to a mutable vector, which is
modelled by threading the accumulator list.
-/

mutual

/-- The reason of a parse error, from `rust_sitter::errors::ParseErrorReason`
as consumed by app.rs. -/
inductive ParseErrorReason where
  | MissingToken (tok : String)
  | UnexpectedToken (tok : String)
  | FailedNode (children : List ParseError)

/-- A parse error node with its half-open byte span `[start, stop)` into
the source. -/
inductive ParseError where
  | mk (start : Nat) (stop : Nat) (reason : ParseErrorReason)

end

/-- Severity of a diagnostic; app.rs only ever emits `Level::Error`. -/
inductive Level where
  | Error
deriving DecidableEq

/-- A labelled span of a diagnostic, from `SpanLabel` as populated by
app.rs: the subspan offsets, whether the style is primary, and the
label. -/
structure SpanLabel where
  spanLo : Nat
  spanHi : Nat
  primary : Bool
  label : Option String
deriving DecidableEq

/-- A flattened diagnostic record, from `Diagnostic` as populated by
app.rs. -/
structure Diagnostic where
  level : Level
  message : String
  code : Option String
  spans : List SpanLabel
deriving DecidableEq

mutual

/-- `fn convert_parse_error_to_diagnostics` from app.rs: `MissingToken`
and `UnexpectedToken` push one diagnostic each; a `FailedNode` with no
children pushes one generic diagnostic; a `FailedNode` with children
pushes nothing and recurses into every child in order. -/
def convert_parse_error_to_diagnostics : ParseError → List Diagnostic → List Diagnostic
  | ParseError.mk s t (ParseErrorReason.MissingToken tok), acc =>
    acc ++ [⟨Level.Error, "Missing token: \"" ++ tok ++ "\"", some ("S000"),
      [⟨s, t, true, some ("missing \"" ++ tok ++ "\"")⟩]⟩]
  | ParseError.mk s t (ParseErrorReason.UnexpectedToken tok), acc =>
    acc ++ [⟨Level.Error, "Unexpected token: \"" ++ tok ++ "\"", some ("S000"),
      [⟨s, t, true, some ("unexpected \"" ++ tok ++ "\"")⟩]⟩]
  | ParseError.mk s t (ParseErrorReason.FailedNode children), acc =>
    if children.isEmpty then
      acc ++ [⟨Level.Error, "Failed to parse node", some ("S000"),
        [⟨s, t, true, some ("failed")⟩]⟩]
    else convert_error_list children acc

/-- The `for error in errors` loop inside the `FailedNode` arm. -/
def convert_error_list : List ParseError → List Diagnostic → List Diagnostic
  | [], acc => acc
  | e :: es, acc => convert_error_list es (convert_parse_error_to_diagnostics e acc)

end

mutual

/-- The diagnostics of one error node as the claim states them: exactly
one record for each `MissingToken`, `UnexpectedToken` and childless
`FailedNode`, and the concatenation of the children's diagnostics for a
`FailedNode` with children. -/
def claimDiags : ParseError → List Diagnostic
  | ParseError.mk s t (ParseErrorReason.MissingToken tok) =>
    [⟨Level.Error, "Missing token: \"" ++ tok ++ "\"", some ("S000"),
      [⟨s, t, true, some ("missing \"" ++ tok ++ "\"")⟩]⟩]
  | ParseError.mk s t (ParseErrorReason.UnexpectedToken tok) =>
    [⟨Level.Error, "Unexpected token: \"" ++ tok ++ "\"", some ("S000"),
      [⟨s, t, true, some ("unexpected \"" ++ tok ++ "\"")⟩]⟩]
  | ParseError.mk s t (ParseErrorReason.FailedNode []) =>
    [⟨Level.Error, "Failed to parse node", some ("S000"),
      [⟨s, t, true, some ("failed")⟩]⟩]
  | ParseError.mk _ _ (ParseErrorReason.FailedNode (c :: cs)) =>
    claimDiagsList (c :: cs)

/-- Concatenation of the diagnostics of a list of children, in stored
order. -/
def claimDiagsList : List ParseError → List Diagnostic
  | [] => []
  | e :: es => claimDiags e ++ claimDiagsList es

end

/-! ## Source-text families for object and array claims -/

/-- The ten decimal digit characters. -/
def digitChars : List Char := ['0', '1', '2', '3', '4', '5', '6', '7', '8', '9']

/-- A key/value pair used to build object source text: a one-character
key and a one-digit value. -/
def validProp (p : Char × Char) : Prop :=
  p.1 ≠ '"' ∧ p.1 ≠ '\\' ∧ isWs p.1 = false ∧ p.1.toNat < 55296 ∧ p.2 ∈ digitChars

instance (p : Char × Char) : Decidable (validProp p) := by
  unfold validProp; infer_instance

/-- Renders one property as `"k":d`. -/
def renderProp (p : Char × Char) : List Char := ['"', p.1, '"', ':', p.2]

/-- Renders the continuation of a property list: `,"k":d` for each
further property. -/
def renderPropsTail : List (Char × Char) → List Char
  | [] => []
  | p :: ps => ',' :: (renderProp p ++ renderPropsTail ps)

/-- Renders a comma-separated property list. -/
def renderProps : List (Char × Char) → List Char
  | [] => []
  | p :: ps => renderProp p ++ renderPropsTail ps

/-- Renders an object source text from its property list. -/
def renderObj (ps : List (Char × Char)) : List Char :=
  '\x7b' :: (renderProps ps ++ ['\x7d'])

/-- Renders an object source text with a trailing comma before the
closing brace. -/
def renderObjTrailing (ps : List (Char × Char)) : List Char :=
  '\x7b' :: (renderProps ps ++ [',', '\x7d'])

/-- Renders the continuation of an array element list: `,d` for each
further one-digit element. -/
def renderElemsTail : List Char → List Char
  | [] => []
  | d :: ds => ',' :: d :: renderElemsTail ds

/-- Renders a comma-separated element list of one-digit numbers. -/
def renderElems : List Char → List Char
  | [] => []
  | d :: ds => d :: renderElemsTail ds

/-- Renders an array source text with a trailing comma before the closing
bracket. -/
def renderArrTrailing (ds : List Char) : List Char :=
  '[' :: (renderElems ds ++ [',', ']'])

/-- The object entries an object source text should decode to: each
property becomes its (decoded) one-character key paired with the one-digit
number token. -/
def decodeProps (ps : List (Char × Char)) : List (List Char × JsonValue) :=
  ps.map (fun p => ([p.1], JsonValue.Number [p.2]))

/-- True when the input begins with a character that ends a number token
in the rendered families (a comma or a closing bracket), or is empty. -/
def numStop : List Char → Bool
  | [] => true
  | c :: _ => c = ',' ∨ c = ']' ∨ c = '\x7d'

example : renderObj [('a', '1'), ('a', '2')] = "\x7b\"a\":1,\"a\":2\x7d".data := by decide
example : renderArrTrailing ['1'] = "[1,]".data := by decide

/-! ## Helper lemmas -/

theorem longestNumLen_le (s : List Char) : ∀ n, longestNumLen s n ≤ n := by
  intro n
  induction n with
  | zero => simp [longestNumLen]
  | succ n ih =>
    rw [longestNumLen]
    split
    · exact Nat.le_refl _
    · exact Nat.le_succ_of_le ih

theorem le_longestNumLen (s : List Char) :
    ∀ (n k : Nat), k ≤ n → matchesNumberToken (s.take k) = true → k ≤ longestNumLen s n := by
  intro n
  induction n with
  | zero =>
    intro k hk hm
    interval_cases k
    simp [List.take, matchesNumberToken, digitsSpan] at hm
  | succ n ih =>
    intro k hk hm
    rw [longestNumLen]
    split
    · exact hk
    · rcases Nat.lt_or_ge k (n + 1) with h | h
      · exact ih k (Nat.lt_succ_iff.mp h) hm
      · have hkn : k = n + 1 := Nat.le_antisymm hk h
        subst hkn
        simp_all

theorem digitsSpan_stop (r : List Char) (hr : numStop r = true) : digitsSpan r = ([], r) := by
  rcases r with _ | ⟨c, t⟩
  · rfl
  · simp only [numStop, decide_eq_true_eq] at hr
    rcases hr with rfl | rfl | rfl <;> rfl

theorem parseValue_digit (fuel : Nat) (d : Char) (r : List Char)
    (hd : d ∈ digitChars) (hr : numStop r = true) :
    parseValue (fuel + 1) (d :: r) = some (JsonValue.Number [d], r) := by
  rcases r with _ | ⟨c, t⟩
  · fin_cases hd <;> rfl
  · simp only [numStop, decide_eq_true_eq] at hr
    rcases hr with rfl | rfl | rfl <;> fin_cases hd <;> rfl

theorem parseValue_fail_close (c : Char) (hc : c = ']' ∨ c = '\x7d') :
    ∀ (fuel : Nat) (r : List Char), parseValue fuel (c :: r) = none := by
  intro fuel r
  rcases hc with rfl | rfl <;> rcases fuel with _ | g <;> rfl

theorem unescape_plain_char (k : Char) (hb : k ≠ '\\') (hbmp : k.toNat < 55296) :
    unescape [k] = UnescapeResult.ok [k] := by
  have hmod : k.toNat % 65536 = k.toNat := Nat.mod_eq_of_lt (by omega)
  simp [unescape, runU, stepU, hb, hmod, fromUtf16, hbmp, Char.ofNat_toNat]

theorem parseJString_key (k : Char) (r : List Char) (hq : k ≠ '"') (hb : k ≠ '\\')
    (hbmp : k.toNat < 55296) :
    parseJString ('"' :: k :: '"' :: r) = some ([k], r) := by
  have hs : scanStringBody ('"' :: r) = some ([], r) := by
    cases r <;> simp [scanStringBody]
  simp [parseJString, scanStringBody, hq, hb, hs, unescape_plain_char k hb hbmp]

theorem parseJString_ne_quote (c : Char) (r : List Char) (h : c ≠ '"') :
    parseJString (c :: r) = none := by
  simp [parseJString, h]

theorem parseProp_fail (c : Char) (hq : c ≠ '"') (hw : isWs c = false) :
    ∀ (fuel : Nat) (r : List Char), parseProp fuel (c :: r) = none := by
  intro fuel r
  rcases fuel with _ | g
  · rfl
  · simp [parseProp, skipWs, hw, parseJString_ne_quote c r hq]

theorem parseProp_render (fuel : Nat) (p : Char × Char) (r : List Char)
    (hv : validProp p) (hr : numStop r = true) (hf : 1 ≤ fuel) :
    parseProp (fuel + 1) (renderProp p ++ r) = some (([p.1], JsonValue.Number [p.2]), r) := by
  obtain ⟨k, d⟩ := p
  obtain ⟨hq, hb, hw, hbmp, hd⟩ := hv
  obtain ⟨g, rfl⟩ : ∃ g, fuel = g + 1 := ⟨fuel - 1, by omega⟩
  have h1 : parseJString ('"' :: k :: '"' :: (':' :: d :: r)) = some ([k], ':' :: d :: r) :=
    parseJString_key k _ hq hb hbmp
  have h2 : parseValue (g + 1) (d :: r) = some (JsonValue.Number [d], r) :=
    parseValue_digit g d r hd hr
  have w1 : ∀ X : List Char, skipWs ('"' :: X) = '"' :: X := fun _ => rfl
  have w2 : ∀ X : List Char, skipWs (':' :: X) = ':' :: X := fun _ => rfl
  simp [renderProp, parseProp, w1, w2, h1, h2]

theorem numStop_renderPropsTail (ps : List (Char × Char)) (c : Char) (r : List Char)
    (hc : c = ',' ∨ c = ']' ∨ c = '\x7d') :
    numStop (renderPropsTail ps ++ c :: r) = true := by
  rcases ps with _ | ⟨p, ps⟩
  · rcases hc with rfl | rfl | rfl <;> rfl
  · rfl

theorem numStop_renderElemsTail (ds : List Char) (c : Char) (r : List Char)
    (hc : c = ',' ∨ c = ']' ∨ c = '\x7d') :
    numStop (renderElemsTail ds ++ c :: r) = true := by
  rcases ds with _ | ⟨d, ds⟩
  · rcases hc with rfl | rfl | rfl <;> rfl
  · rfl

theorem parsePropsTail_render (ps : List (Char × Char)) :
    ∀ (fuel : Nat) (r : List Char), (∀ p ∈ ps, validProp p) → ps.length + 2 ≤ fuel →
      parsePropsTail fuel (renderPropsTail ps ++ '\x7d' :: r) =
        some (decodeProps ps, '\x7d' :: r) := by
  induction ps with
  | nil =>
    intro fuel r _ hf
    obtain ⟨g, rfl⟩ : ∃ g, fuel = g + 1 := ⟨fuel - 1, by omega⟩
    rfl
  | cons p ps ih =>
    intro fuel r hv hf
    obtain ⟨g, rfl⟩ : ∃ g, fuel = g + 1 := ⟨fuel - 1, by omega⟩
    obtain ⟨g2, rfl⟩ : ∃ g2, g = g2 + 1 := ⟨g - 1, by simp at hf; omega⟩
    have hstop : numStop (renderPropsTail ps ++ '\x7d' :: r) = true :=
      numStop_renderPropsTail ps '\x7d' r (by simp)
    have hprop : parseProp (g2 + 1) (renderProp p ++ (renderPropsTail ps ++ '\x7d' :: r)) =
        some (([p.1], JsonValue.Number [p.2]), renderPropsTail ps ++ '\x7d' :: r) :=
      parseProp_render g2 p _ (hv p (by simp)) hstop (by simp at hf; omega)
    have htail := ih (g2 + 1) r (fun q hq => hv q (by simp [hq])) (by simp at hf; omega)
    have w : ∀ X : List Char, skipWs (',' :: X) = ',' :: X := fun _ => rfl
    rw [show renderPropsTail (p :: ps) ++ '\x7d' :: r =
      ',' :: (renderProp p ++ (renderPropsTail ps ++ '\x7d' :: r)) by simp [renderPropsTail]]
    rw [parsePropsTail, w]
    simp [hprop, htail, decodeProps]

theorem parseProps_render (ps : List (Char × Char)) (fuel : Nat) (r : List Char)
    (hv : ∀ p ∈ ps, validProp p) (hf : ps.length + 2 ≤ fuel) :
    parseProps fuel (renderProps ps ++ '\x7d' :: r) = some (decodeProps ps, '\x7d' :: r) := by
  obtain ⟨g, rfl⟩ : ∃ g, fuel = g + 1 := ⟨fuel - 1, by omega⟩
  rcases ps with _ | ⟨p, ps⟩
  · have h := parseProp_fail '\x7d' (by decide) (by decide) g r
    rw [show renderProps ([] : List (Char × Char)) ++ '\x7d' :: r = '\x7d' :: r by
      simp [renderProps]]
    rw [parseProps]
    simp [h, decodeProps]
  · have hstop : numStop (renderPropsTail ps ++ '\x7d' :: r) = true :=
      numStop_renderPropsTail ps '\x7d' r (by simp)
    have hprop : parseProp g (renderProp p ++ (renderPropsTail ps ++ '\x7d' :: r)) =
        some (([p.1], JsonValue.Number [p.2]), renderPropsTail ps ++ '\x7d' :: r) := by
      obtain ⟨g2, rfl⟩ : ∃ g2, g = g2 + 1 := ⟨g - 1, by simp at hf; omega⟩
      exact parseProp_render g2 p _ (hv p (by simp)) hstop (by simp at hf; omega)
    have htail := parsePropsTail_render ps g r (fun q hq => hv q (by simp [hq]))
      (by simp at hf; omega)
    rw [show renderProps (p :: ps) ++ '\x7d' :: r =
      renderProp p ++ (renderPropsTail ps ++ '\x7d' :: r) by simp [renderProps]]
    rw [parseProps]
    simp [hprop, htail, decodeProps]

theorem renderPropsTail_length (ps : List (Char × Char)) :
    (renderPropsTail ps).length = 6 * ps.length := by
  induction ps with
  | nil => rfl
  | cons p ps ih =>
    simp [renderPropsTail, renderProp, ih]
    omega

theorem renderElemsTail_length (ds : List Char) :
    (renderElemsTail ds).length = 2 * ds.length := by
  induction ds with
  | nil => rfl
  | cons d ds ih =>
    simp [renderElemsTail, ih]
    omega

theorem renderProps_length (ps : List (Char × Char)) :
    ps.length ≤ (renderProps ps).length := by
  rcases ps with _ | ⟨p, ps⟩
  · simp [renderProps]
  · simp [renderProps, renderProp, renderPropsTail_length]
    omega

theorem parseValue_open_brace (fuel : Nat) (r : List Char) :
    parseValue (fuel + 1) ('\x7b' :: r) =
      match parseProps fuel r with
      | some p =>
        (match skipWs p.2 with
         | '\x7d' :: r3 => some (JsonValue.Object p.1, r3)
         | _ => none)
      | none => none := rfl

theorem parseValue_open_bracket (fuel : Nat) (r : List Char) :
    parseValue (fuel + 1) ('[' :: r) =
      match parseElems fuel r with
      | some p =>
        (match skipWs p.2 with
         | ']' :: r3 => some (JsonValue.Array p.1, r3)
         | _ => none)
      | none => none := rfl

theorem parseElemsTail_trailing (ds : List Char) :
    ∀ (fuel : Nat) (r : List Char), (∀ d ∈ ds, d ∈ digitChars) → ds.length + 2 ≤ fuel →
      parseElemsTail fuel (renderElemsTail ds ++ ',' :: ']' :: r) = none := by
  induction ds with
  | nil =>
    intro fuel r _ hf
    obtain ⟨g, rfl⟩ : ∃ g, fuel = g + 1 := ⟨fuel - 1, by omega⟩
    have h := parseValue_fail_close ']' (by simp) g r
    have w : ∀ X : List Char, skipWs (',' :: X) = ',' :: X := fun _ => rfl
    rw [show renderElemsTail ([] : List Char) ++ ',' :: ']' :: r = ',' :: ']' :: r by
      simp [renderElemsTail]]
    rw [parseElemsTail, w]
    simp [h]
  | cons d ds ih =>
    intro fuel r hv hf
    obtain ⟨g, rfl⟩ : ∃ g, fuel = g + 1 := ⟨fuel - 1, by omega⟩
    obtain ⟨g2, rfl⟩ : ∃ g2, g = g2 + 1 := ⟨g - 1, by simp at hf; omega⟩
    have hstop : numStop (renderElemsTail ds ++ ',' :: ']' :: r) = true :=
      numStop_renderElemsTail ds ',' _ (by simp)
    have hval : parseValue (g2 + 1) (d :: (renderElemsTail ds ++ ',' :: ']' :: r)) =
        some (JsonValue.Number [d], renderElemsTail ds ++ ',' :: ']' :: r) :=
      parseValue_digit g2 d _ (hv d (by simp)) hstop
    have htail := ih (g2 + 1) r (fun x hx => hv x (by simp [hx])) (by simp at hf; omega)
    have w : ∀ X : List Char, skipWs (',' :: X) = ',' :: X := fun _ => rfl
    rw [show renderElemsTail (d :: ds) ++ ',' :: ']' :: r =
      ',' :: (d :: (renderElemsTail ds ++ ',' :: ']' :: r)) by simp [renderElemsTail]]
    rw [parseElemsTail, w]
    simp [hval, htail]

theorem parsePropsTail_trailing (ps : List (Char × Char)) :
    ∀ (fuel : Nat) (r : List Char), (∀ p ∈ ps, validProp p) → ps.length + 2 ≤ fuel →
      parsePropsTail fuel (renderPropsTail ps ++ ',' :: '\x7d' :: r) = none := by
  induction ps with
  | nil =>
    intro fuel r _ hf
    obtain ⟨g, rfl⟩ : ∃ g, fuel = g + 1 := ⟨fuel - 1, by omega⟩
    have h := parseProp_fail '\x7d' (by decide) (by decide) g r
    have w : ∀ X : List Char, skipWs (',' :: X) = ',' :: X := fun _ => rfl
    rw [show renderPropsTail ([] : List (Char × Char)) ++ ',' :: '\x7d' :: r =
      ',' :: '\x7d' :: r by simp [renderPropsTail]]
    rw [parsePropsTail, w]
    simp [h]
  | cons p ps ih =>
    intro fuel r hv hf
    obtain ⟨g, rfl⟩ : ∃ g, fuel = g + 1 := ⟨fuel - 1, by omega⟩
    obtain ⟨g2, rfl⟩ : ∃ g2, g = g2 + 1 := ⟨g - 1, by simp at hf; omega⟩
    have hstop : numStop (renderPropsTail ps ++ ',' :: '\x7d' :: r) = true :=
      numStop_renderPropsTail ps ',' _ (by simp)
    have hprop : parseProp (g2 + 1) (renderProp p ++ (renderPropsTail ps ++ ',' :: '\x7d' :: r)) =
        some (([p.1], JsonValue.Number [p.2]), renderPropsTail ps ++ ',' :: '\x7d' :: r) :=
      parseProp_render g2 p _ (hv p (by simp)) hstop (by simp at hf; omega)
    have htail := ih (g2 + 1) r (fun q hq => hv q (by simp [hq])) (by simp at hf; omega)
    have w : ∀ X : List Char, skipWs (',' :: X) = ',' :: X := fun _ => rfl
    rw [show renderPropsTail (p :: ps) ++ ',' :: '\x7d' :: r =
      ',' :: (renderProp p ++ (renderPropsTail ps ++ ',' :: '\x7d' :: r)) by
      simp [renderPropsTail]]
    rw [parsePropsTail, w]
    simp [hprop, htail]

/-! ## Claim theorems -/

/-- C1: the spec claims every \uXXXX escape with hex digits 0-9, A-F or
a-f decodes and round-trips. The code's hex-digit match arms use the
exclusive ranges `'0'..'9'` and `'A'..'F'` and have no lowercase arm, so
the digits `9`, `F` and `a` all reach the catch-all abort arm instead of
decoding: the escapes of U+0039, U+000F via uppercase `F`, and U+000A via
lowercase `a` all abort rather than round-trip. -/
theorem unescape_hex_digit_nine_code_bug :
    unescape ("\\u0039".data) = UnescapeResult.panicked '9'
  ∧ unescape ("\\u000F".data) = UnescapeResult.panicked 'F'
  ∧ unescape ("\\u000a".data) = UnescapeResult.panicked 'a' := by decide

/-- C2: the surrogate pair \uD83D\uDE10 decodes to the single code point
U+1F610, while a lone high surrogate, a lone low surrogate and two
consecutive high surrogates each fail with `UnicodeError`. -/
theorem unescape_surrogate_pairing :
    unescape ("\\uD83D\\uDE10".data) = UnescapeResult.ok [Char.ofNat 128528]
  ∧ unescape ("\\uD800".data) = UnescapeResult.error EscapeError.UnicodeError
  ∧ unescape ("\\uDC00".data) = UnescapeResult.error EscapeError.UnicodeError
  ∧ unescape ("\\uD800\\uD800".data) = UnescapeResult.error EscapeError.UnicodeError := by
  decide

/-- C4: whenever the scanning loop of `unescape` reaches the end of the
input with a positive pending-escape counter, the result is
`UnfinishedEscapeSequence`; in particular for the inputs `\` and `\u12`. -/
theorem unescape_unfinished_escape :
    (∀ (s : List Char) (st : UState), runU ⟨[], false, 0, 0⟩ s = Except.ok st →
      0 < st.escape →
      unescape s = UnescapeResult.error EscapeError.UnfinishedEscapeSequence)
  ∧ unescape ("\\".data) = UnescapeResult.error EscapeError.UnfinishedEscapeSequence
  ∧ unescape ("\\u12".data) = UnescapeResult.error EscapeError.UnfinishedEscapeSequence := by
  refine ⟨?_, by decide, by decide⟩
  intro s st h hpos
  simp [unescape, h, hpos]

/-- C4 witness: the input `\u12` leaves the loop in a state with three
pending escape characters, hence fails as unfinished. -/
theorem unescape_unfinished_escape_witness :
    unescape ("\\u12".data) = UnescapeResult.error EscapeError.UnfinishedEscapeSequence :=
  unescape_unfinished_escape.1 ("\\u12".data) ⟨[], true, 18, 2⟩ (by rfl) (by decide)

/-- C3 counterexample: the number leaf pattern `\d+\.?\d*[eE]?\d*` allows
the exponent digits to be absent, so the longest-prefix number token of
`123e` is the whole of `123e`: the `e` IS part of the number token,
contrary to the claim that the `e` and everything after it are left to
subsequent grammar productions. -/
theorem numberToken_includes_bare_exponent_marker :
    numberToken ("123e".data) = "123e".data ∧ 'e' ∈ numberToken ("123e".data) := by decide

/-- C3 amended: the number token matches the longest prefix of the input
matching `\d+\.?\d*[eE]?\d*`; since the pattern admits an exponent marker
with no following digits, the token for `123e` is `123e` itself (not
`123`), and that token then fails `f64` parsing in the transform instead
of the `e` being consumed by subsequent grammar. -/
theorem numberToken_longest_match_amended :
    (∀ (s p t : List Char), p ++ t = s → matchesNumberToken p = true →
      p.length ≤ (numberToken s).length)
  ∧ numberToken ("123e".data) = "123e".data
  ∧ rustF64Syntax ("123e".data) = false := by
  refine ⟨?_, by decide, by decide⟩
  intro s p t hpt hm
  have hlen : p.length ≤ s.length := by
    rw [← hpt, List.length_append]
    exact Nat.le_add_right _ _
  have htake : s.take p.length = p := by
    rw [← hpt]; exact List.take_left p t
  have hle : p.length ≤ longestNumLen s s.length :=
    le_longestNumLen s s.length p.length hlen (by rw [htake]; exact hm)
  have hL : longestNumLen s s.length ≤ s.length := longestNumLen_le s s.length
  rw [numberToken, List.length_take]
  omega

/-- C3 witness: the matching prefix `12` of `123e` is no longer than the
number token produced there. -/
theorem numberToken_longest_match_witness :
    ("12".data).length ≤ (numberToken ("123e".data)).length :=
  numberToken_longest_match_amended.1 ("123e".data) ("12".data) ("3e".data)
    (by decide) (by decide)

/-- C7: the empty array source `[]` parses to an `Array` with an empty
element list and the empty object source parses to an `Object` with an
empty property list. -/
theorem empty_containers_parse :
    parse ("[]".data) = some (JsonValue.Array [])
  ∧ parse ("\x7b\x7d".data) = some (JsonValue.Object []) := ⟨rfl, rfl⟩

/-- C10: the leaf transforms are partial: the string token `"\uD800"`
matches the string leaf pattern but its body fails escape decoding, so
the transform's `expect` aborts; the token `123e` matches the number leaf
pattern (and is the maximal-munch token even with input following) but is
not valid `f64` syntax, so the transform's `unwrap` aborts. -/
theorem leaf_transforms_partiality :
    matchesStringToken ("\"\\uD800\"".data) = true
  ∧ unescape ("\\uD800".data) = UnescapeResult.error EscapeError.UnicodeError
  ∧ jsonStringTransform ("\"\\uD800\"".data) = none
  ∧ matchesNumberToken ("123e".data) = true
  ∧ numberToken ("123e]".data) = "123e".data
  ∧ rustF64Syntax ("123e".data) = false
  ∧ jsonNumberTransform ("123e".data) = none := by decide

/-- C9 counterexample: the claim says that inside a \uXXXX escape every
character outside the exclusive ranges `'0'..'9'` and `'A'..'F'` -
notably every lowercase hex digit a-f - reaches the catch-all abort arm;
but `b` (a lowercase hex digit outside both ranges) matches the earlier
simple-escape arm `'b' => 8` and does not abort: `\u0b00` decodes
successfully (to U+0800, using 8 rather than 11 for `b`). -/
theorem unescape_unicode_b_reaches_simple_arm :
    unescape ("\\u0b00".data) = UnescapeResult.ok [Char.ofNat 2048]
  ∧ unescape ("\\u0b00".data) ≠ UnescapeResult.panicked 'b' := by decide

/-- C9 amended: `unescape` is partial: an escaped character outside the
simple-escape set reaches the catch-all abort arm, and inside a \uXXXX
escape a character outside the exclusive hex ranges `'0'..'9'` and
`'A'..'F'` AND outside the simple-escape set (notably `9`, `F`, and the
lowercase letters `a`, `c`, `d`, `e`) reaches it as well; the lowercase
hex digits `b` and `f` are instead consumed by the simple-escape arms
with values 8 and 12. -/
theorem unescape_catch_all_arm_amended :
    (∀ c : Char, c ∉ simpleEscapeChars → c ≠ 'u' →
      unescape ['\\', c] = UnescapeResult.panicked c)
  ∧ (∀ c : Char, c ∉ simpleEscapeChars → c ≠ 'u' →
      ¬('0' ≤ c ∧ c < '9') → ¬('A' ≤ c ∧ c < 'F') →
      unescape ['\\', 'u', c] = UnescapeResult.panicked c)
  ∧ unescape ("\\u0b00".data) = UnescapeResult.ok [Char.ofNat 2048]
  ∧ unescape ("\\u0f00".data) = UnescapeResult.ok [Char.ofNat 3072] := by
  refine ⟨?_, ?_, by decide, by decide⟩
  · intro c hmem hu
    simp only [simpleEscapeChars, List.mem_cons, List.not_mem_nil, or_false, not_or] at hmem
    obtain ⟨h1, h2, h3, h4, h5, h6, h7, h8, h9⟩ := hmem
    simp [unescape, runU, stepU, matchCh, h1, h2, h3, h4, h5, h6, h7, h8, h9, hu]
  · intro c hmem hu hd hh
    simp only [simpleEscapeChars, List.mem_cons, List.not_mem_nil, or_false, not_or] at hmem
    obtain ⟨h1, h2, h3, h4, h5, h6, h7, h8, h9⟩ := hmem
    simp [unescape, runU, stepU, matchCh, h1, h2, h3, h4, h5, h6, h7, h8, h9, hu, hd, hh]

/-- C9 witness: the escaped character `x` is outside the simple-escape
set and aborts, and inside a unicode escape the lowercase hex digit `c`
aborts. -/
theorem unescape_catch_all_arm_witness :
    unescape ['\\', 'x'] = UnescapeResult.panicked 'x' :=
  unescape_catch_all_arm_amended.1 'x' (by decide) (by decide)

/-- C6: every object source text built from a property list of
one-character keys and one-digit values - in particular any list in which
the same key occurs more than once, such as the spec's example with two
entries for the key `a` - parses to an `Object` holding every name/value
pair as a separate entry in source order: keys are never deduplicated or
reordered. -/
theorem object_duplicate_keys_preserved :
    ∀ (ps : List (Char × Char)), (∀ p ∈ ps, validProp p) →
      parse (renderObj ps) = some (JsonValue.Object (decodeProps ps)) := by
  intro ps hv
  have hlp := renderProps_length ps
  have hval : parseValue ((renderObj ps).length + 1) (renderObj ps) =
      some (JsonValue.Object (decodeProps ps), []) := by
    rw [show renderObj ps = '\x7b' :: (renderProps ps ++ '\x7d' :: []) from rfl]
    simp only [List.length_cons]
    rw [parseValue_open_brace]
    rw [parseProps_render ps _ [] hv
      (by simp [List.length_append]; omega)]
    rfl
  simp [parse, hval, skipWs]

/-- C6 witness: the spec's duplicate-key example yields two entries for
the key `a`, in source order. -/
theorem object_duplicate_keys_witness :
    parse ("\x7b\"a\":1,\"a\":2\x7d".data) =
      some (JsonValue.Object
        [(['a'], JsonValue.Number ['1']), (['a'], JsonValue.Number ['2'])]) :=
  object_duplicate_keys_preserved [('a', '1'), ('a', '2')] (by decide)

/-- C8: an array or object source text with a trailing comma before the
closing bracket fails to parse: after a delimiter another element or
property is required, so the delimiter is never permitted after the last
element; in particular `[1,]` fails. -/
theorem trailing_delimiter_rejected :
    (∀ ds : List Char, ds ≠ [] → (∀ d ∈ ds, d ∈ digitChars) →
      parse (renderArrTrailing ds) = none)
  ∧ (∀ ps : List (Char × Char), ps ≠ [] → (∀ p ∈ ps, validProp p) →
      parse (renderObjTrailing ps) = none)
  ∧ parse ("[1,]".data) = none := by
  refine ⟨?_, ?_, rfl⟩
  · intro ds hne hv
    rcases ds with _ | ⟨d, ds⟩
    · exact absurd rfl hne
    · have hstop : numStop (renderElemsTail ds ++ ',' :: ']' :: []) = true :=
        numStop_renderElemsTail ds ',' ([']']) (by simp)
      have hval2 : parseValue ((renderElemsTail ds ++ ',' :: ']' :: []).length + 1)
          (d :: (renderElemsTail ds ++ ',' :: ']' :: [])) =
          some (JsonValue.Number [d], renderElemsTail ds ++ ',' :: ']' :: []) :=
        parseValue_digit _ d _ (hv d (by simp)) hstop
      have htail : parseElemsTail ((renderElemsTail ds ++ ',' :: ']' :: []).length + 1)
          (renderElemsTail ds ++ ',' :: ']' :: []) = none := by
        apply parseElemsTail_trailing ds _ [] (fun x hx => hv x (by simp [hx]))
        simp [List.length_append, renderElemsTail_length]
        omega
      have hval : parseValue ((renderArrTrailing (d :: ds)).length + 1)
          (renderArrTrailing (d :: ds)) = none := by
        rw [show renderArrTrailing (d :: ds) =
          '[' :: d :: (renderElemsTail ds ++ ',' :: ']' :: []) from rfl]
        simp only [List.length_cons]
        rw [parseValue_open_bracket]
        rw [parseElems]
        simp only [hval2, htail]
      simp [parse, hval]
  · intro ps hne hv
    rcases ps with _ | ⟨p, ps⟩
    · exact absurd rfl hne
    · have hstop : numStop (renderPropsTail ps ++ ',' :: '\x7d' :: []) = true :=
        numStop_renderPropsTail ps ',' (['\x7d']) (by simp)
      have hlen6 := renderPropsTail_length ps
      have hval : parseValue ((renderObjTrailing (p :: ps)).length + 1)
          (renderObjTrailing (p :: ps)) = none := by
        rw [show renderObjTrailing (p :: ps) =
          '\x7b' :: ((renderProp p ++ renderPropsTail ps) ++ ',' :: '\x7d' :: []) from rfl]
        rw [List.append_assoc]
        simp only [List.length_cons]
        rw [parseValue_open_brace]
        rw [parseProps]
        obtain ⟨g, hg⟩ : ∃ g,
            (renderProp p ++ (renderPropsTail ps ++ ',' :: '\x7d' :: [])).length = g + 1 :=
          ⟨4 + (renderPropsTail ps ++ ',' :: '\x7d' :: []).length, by simp [renderProp]; omega⟩
        rw [hg]
        have hXlen : (renderProp p ++ (renderPropsTail ps ++ ',' :: '\x7d' :: [])).length =
            6 * ps.length + 7 := by
          simp [renderProp, List.length_append, hlen6]
        have hgval : g = 6 * ps.length + 6 := by omega
        have hprop : parseProp (g + 1)
            (renderProp p ++ (renderPropsTail ps ++ ',' :: '\x7d' :: [])) =
            some (([p.1], JsonValue.Number [p.2]),
              renderPropsTail ps ++ ',' :: '\x7d' :: []) :=
          parseProp_render g p _ (hv p (by simp)) hstop (by omega)
        have htail : parsePropsTail (g + 1)
            (renderPropsTail ps ++ ',' :: '\x7d' :: []) = none :=
          parsePropsTail_trailing ps (g + 1) [] (fun q hq => hv q (by simp [hq]))
            (by omega)
        simp only [hprop, htail]
      simp [parse, hval]

/-- C8 witness: the spec's example `[1,]` is rejected. -/
theorem trailing_delimiter_witness : parse ("[1,]".data) = none :=
  trailing_delimiter_rejected.1 ['1'] (by decide) (by decide)

mutual

theorem convert_eq_claimDiags (e : ParseError) (acc : List Diagnostic) :
    convert_parse_error_to_diagnostics e acc = acc ++ claimDiags e := by
  match e with
  | ParseError.mk s t (ParseErrorReason.MissingToken tok) =>
    simp [convert_parse_error_to_diagnostics, claimDiags]
  | ParseError.mk s t (ParseErrorReason.UnexpectedToken tok) =>
    simp [convert_parse_error_to_diagnostics, claimDiags]
  | ParseError.mk s t (ParseErrorReason.FailedNode []) =>
    simp [convert_parse_error_to_diagnostics, claimDiags]
  | ParseError.mk s t (ParseErrorReason.FailedNode (c :: cs)) =>
    rw [show convert_parse_error_to_diagnostics
          (ParseError.mk s t (ParseErrorReason.FailedNode (c :: cs))) acc =
        convert_error_list (c :: cs) acc by
      simp [convert_parse_error_to_diagnostics]]
    rw [show claimDiags (ParseError.mk s t (ParseErrorReason.FailedNode (c :: cs))) =
        claimDiagsList (c :: cs) by simp [claimDiags]]
    exact convert_list_eq_claimDiagsList (c :: cs) acc

theorem convert_list_eq_claimDiagsList (es : List ParseError) (acc : List Diagnostic) :
    convert_error_list es acc = acc ++ claimDiagsList es := by
  match es with
  | [] => simp [convert_error_list, claimDiagsList]
  | e :: es2 =>
    rw [convert_error_list, claimDiagsList, convert_eq_claimDiags e acc,
        convert_list_eq_claimDiagsList es2 (acc ++ claimDiags e), List.append_assoc]

end

theorem claimDiagsList_eq_flatten (es : List ParseError) :
    claimDiagsList es = (es.map claimDiags).flatten := by
  induction es with
  | nil => simp [claimDiagsList]
  | cons e es ih => simp [claimDiagsList, ih]

/-- C5: the diagnostic translator appends to the accumulator exactly the
claim-shaped diagnostics of the error tree: one diagnostic per
`MissingToken` and `UnexpectedToken` node referencing the token in the
message and labelling the span `[start, stop)`, exactly one generic
"failed to parse node" diagnostic per childless `FailedNode`, and no
diagnostic for a `FailedNode` with children - only the concatenation of
the children's diagnostics in stored order. -/
theorem convert_diagnostics_spec :
    (∀ (e : ParseError) (acc : List Diagnostic),
      convert_parse_error_to_diagnostics e acc = acc ++ claimDiags e)
  ∧ (∀ (s t : Nat) (tok : String),
      claimDiags (ParseError.mk s t (ParseErrorReason.MissingToken tok)) =
        [⟨Level.Error, "Missing token: \"" ++ tok ++ "\"", some ("S000"),
          [⟨s, t, true, some ("missing \"" ++ tok ++ "\"")⟩]⟩])
  ∧ (∀ (s t : Nat) (tok : String),
      claimDiags (ParseError.mk s t (ParseErrorReason.UnexpectedToken tok)) =
        [⟨Level.Error, "Unexpected token: \"" ++ tok ++ "\"", some ("S000"),
          [⟨s, t, true, some ("unexpected \"" ++ tok ++ "\"")⟩]⟩])
  ∧ (∀ (s t : Nat),
      claimDiags (ParseError.mk s t (ParseErrorReason.FailedNode [])) =
        [⟨Level.Error, "Failed to parse node", some ("S000"),
          [⟨s, t, true, some ("failed")⟩]⟩])
  ∧ (∀ (s t : Nat) (c : ParseError) (cs : List ParseError),
      claimDiags (ParseError.mk s t (ParseErrorReason.FailedNode (c :: cs))) =
        ((c :: cs).map claimDiags).flatten) := by
  refine ⟨convert_eq_claimDiags, ?_, ?_, ?_, ?_⟩ <;> intros <;>
    simp [claimDiags, claimDiagsList_eq_flatten]

end JsonSitter
